/-
Verification of the CSV-to-JSON card data rebuild pipeline
(`rebuild_card_data.py`) against its natural-language specification.

The Python source is shallowly embedded: every CSV row is a finite map
from column names to strings, Python string methods are modelled over
`List Char`, and Python's built-in `float()` parser is modelled as a
total function returning `Option PyFloat` (the exception on a failed
parse becomes `none`).  All definitions are executable.
-/
import Mathlib

set_option autoImplicit false

/-! ## Character-level models of Python string primitives -/

/-- ASCII lower-casing of a single character, as Python `str.lower` acts on
the ASCII range (all inputs of this pipeline are ASCII). -/
def lowerChar (c : Char) : Char :=
  match c with
  | 'A' => 'a' | 'B' => 'b' | 'C' => 'c' | 'D' => 'd' | 'E' => 'e'
  | 'F' => 'f' | 'G' => 'g' | 'H' => 'h' | 'I' => 'i' | 'J' => 'j'
  | 'K' => 'k' | 'L' => 'l' | 'M' => 'm' | 'N' => 'n' | 'O' => 'o'
  | 'P' => 'p' | 'Q' => 'q' | 'R' => 'r' | 'S' => 's' | 'T' => 't'
  | 'U' => 'u' | 'V' => 'v' | 'W' => 'w' | 'X' => 'x' | 'Y' => 'y'
  | 'Z' => 'z'
  | c => c

/-- ASCII upper-casing of a single character, as Python `str.upper` acts on
the ASCII range. -/
def upperChar (c : Char) : Char :=
  match c with
  | 'a' => 'A' | 'b' => 'B' | 'c' => 'C' | 'd' => 'D' | 'e' => 'E'
  | 'f' => 'F' | 'g' => 'G' | 'h' => 'H' | 'i' => 'I' | 'j' => 'J'
  | 'k' => 'K' | 'l' => 'L' | 'm' => 'M' | 'n' => 'N' | 'o' => 'O'
  | 'p' => 'P' | 'q' => 'Q' | 'r' => 'R' | 's' => 'S' | 't' => 'T'
  | 'u' => 'U' | 'v' => 'V' | 'w' => 'W' | 'x' => 'X' | 'y' => 'Y'
  | 'z' => 'Z'
  | c => c

/-- The whitespace characters recognised by Python `str.strip` and by the
regex class `\s` on ASCII input. -/
def isPySpace (c : Char) : Bool :=
  c == ' ' || c == '\t' || c == '\n' || c == '\r' || c == '\x0b' || c == '\x0c'

/-- Python `needle in haystack` auxiliary: `isPre n h` holds when `n` is an
initial segment of `h`. -/
def isPre : List Char → List Char → Bool
  | [], _ => true
  | _ :: _, [] => false
  | a :: as, b :: bs => a == b && isPre as bs

/-- Python substring test `needle in haystack`. -/
def strIn (needle : List Char) : List Char → Bool
  | [] => isPre needle []
  | c :: rest => isPre needle (c :: rest) || strIn needle rest

/-- Case-insensitive literal matcher: consume `kw` (up to case) from the
front of `l`, returning the remainder on success.  This models matching the
escaped keyword literal under `re.IGNORECASE`. -/
def ciPre : List Char → List Char → Option (List Char)
  | [], l => some l
  | _ :: _, [] => none
  | k :: ks, c :: cs => if lowerChar c = lowerChar k then ciPre ks cs else none

/-- Python `str.strip` (both ends) on a character list. -/
def stripWS (l : List Char) : List Char :=
  ((l.dropWhile isPySpace).reverse.dropWhile isPySpace).reverse

/-- Python `re.sub(r'\s+\d+$', '', kw)`: remove a trailing run of digits
together with the maximal run of whitespace immediately before it; if the
string does not end in whitespace-then-digits it is unchanged. -/
def stripTrailNum (l : List Char) : List Char :=
  let r := l.reverse
  let ds := r.takeWhile Char.isDigit
  let r1 := r.dropWhile Char.isDigit
  let ws := r1.takeWhile isPySpace
  let r2 := r1.dropWhile isPySpace
  if ds ≠ [] ∧ ws ≠ [] then r2.reverse else l

/-- Python `s.split(',')` on a character list. -/
def splitComma : List Char → List (List Char)
  | [] => [[]]
  | c :: rest =>
    if c = ',' then [] :: splitComma rest
    else
      match splitComma rest with
      | h :: t => (c :: h) :: t
      | [] => [[c]]

/-- Python `sep.join(parts)`. -/
def joinSep (sep : String) : List String → String
  | [] => ""
  | [x] => x
  | x :: xs => x ++ sep ++ joinSep sep xs

/-! ## String-level wrappers -/

/-- Python `str.lower`. -/
def pyLower (s : String) : String := ⟨s.data.map lowerChar⟩

/-- Python `str.upper`. -/
def pyUpper (s : String) : String := ⟨s.data.map upperChar⟩

/-- Python `str.strip`. -/
def pyStrip (s : String) : String := ⟨stripWS s.data⟩

/-- Python `str.capitalize`: first character upper-cased, the rest
lower-cased. -/
def pyCapitalize (s : String) : String :=
  match s.data with
  | [] => ""
  | c :: rest => ⟨upperChar c :: rest.map lowerChar⟩

/-- The base form of a keyword candidate: `re.sub(r'\s+\d+$', '', kw)`. -/
def baseStr (s : String) : String := ⟨stripTrailNum s.data⟩

/-- The idiom `v and v.lower() not in ['', 'nan']` used by the row parser
for domains, subtypes, supertypes and tags. -/
def truthyNotNan (s : String) : Bool :=
  s != "" && pyLower s != "" && pyLower s != "nan"

/-! ## Model of Python `float()` -/

/-- Result of a successful Python `float()` call, with the finite values
kept exactly as rationals (every value this pipeline parses is exactly
representable). -/
inductive PyFloat where
  | finite : ℚ → PyFloat
  | posInf : PyFloat
  | negInf : PyFloat
  | nan : PyFloat
deriving DecidableEq

/-- Whether a parsed float value is finite. -/
def PyFloat.finiteB : PyFloat → Bool
  | .finite _ => true
  | _ => false

/-- Numeric value of a digit list (most significant first). -/
def digitsToNat (l : List Char) : Nat :=
  l.foldl (fun n c => 10 * n + (c.toNat - 48)) 0

/-- Underscores in a Python numeric literal must sit between two digits. -/
def underscoresOK (l : List Char) : Bool :=
  go ' ' l
where
  /-- Walk the list remembering the previous character. -/
  go : Char → List Char → Bool
  | _, [] => true
  | prev, c :: rest =>
    if c = '_' then
      (prev.isDigit && (match rest with | d :: _ => d.isDigit | [] => false))
        && go c rest
    else go c rest

/-- Exact rational value of a parsed decimal literal: integer digits `ip`,
fractional digits `fp`, exponent digits `ed` with sign `eneg`, overall
sign `neg`.  The value is `±(ip.fp) × 10^(±e)`, built with `mkRat` so that
it evaluates by kernel reduction. -/
def mkVal (neg : Bool) (ip fp : List Char) (eneg : Bool) (ed : List Char) : ℚ :=
  let e := digitsToNat ed
  let mantNum : Int := (digitsToNat ip * 10 ^ fp.length + digitsToNat fp : Nat)
  let num : Int := if neg then -mantNum else mantNum
  if eneg then mkRat num (10 ^ fp.length * 10 ^ e)
  else mkRat (num * ((10 ^ e : Nat) : Int)) (10 ^ fp.length)

/-- Exponent-digit stage of the `float()` grammar: the remainder after
`e`/`E` and an optional sign must be one or more digits. -/
def parseExpDigits (neg : Bool) (ip fp : List Char) (eneg : Bool) (r : List Char) :
    Option PyFloat :=
  let ed := r.takeWhile Char.isDigit
  if ed ≠ [] ∧ r.dropWhile Char.isDigit = [] then
    some (.finite (mkVal neg ip fp eneg ed))
  else none

/-- Optional-exponent stage of the `float()` grammar. -/
def parseExp (neg : Bool) (ip fp : List Char) (r : List Char) : Option PyFloat :=
  match r with
  | [] => some (.finite (mkVal neg ip fp false []))
  | e :: rest =>
    if e = 'e' ∨ e = 'E' then
      match rest with
      | '+' :: r2 => parseExpDigits neg ip fp false r2
      | '-' :: r2 => parseExpDigits neg ip fp true r2
      | r2 => parseExpDigits neg ip fp false r2
    else none

/-- Decimal-literal stage of the `float()` grammar (after the sign):
`digits [. digits] [exp]` or `. digits [exp]`, with underscores allowed
only between digits. -/
def parseNumber (neg : Bool) (l : List Char) : Option PyFloat :=
  if underscoresOK l then
    let l' := l.filter (fun c => c ≠ '_')
    let ip := l'.takeWhile Char.isDigit
    let r1 := l'.dropWhile Char.isDigit
    match r1 with
    | '.' :: rest =>
      let fp := rest.takeWhile Char.isDigit
      let r2 := rest.dropWhile Char.isDigit
      if ip = [] ∧ fp = [] then none else parseExp neg ip fp r2
    | _ => if ip = [] then none else parseExp neg ip [] r1
  else none

/-- Body of the `float()` grammar after the optional sign: the keywords
`inf`, `infinity` and `nan` (case-insensitive), else a decimal literal. -/
def parseBody (neg : Bool) (l : List Char) : Option PyFloat :=
  let low := l.map lowerChar
  if low = "inf".data ∨ low = "infinity".data then
    some (if neg then .negInf else .posInf)
  else if low = "nan".data then some .nan
  else parseNumber neg l

/-- Python built-in `float(s)`: `none` models the `ValueError` raised on a
failed parse. -/
def pyFloatParse (s : String) : Option PyFloat :=
  let l := stripWS s.data
  if l.head? = some '+' then parseBody false l.tail
  else if l.head? = some '-' then parseBody true l.tail
  else parseBody false l


/-! ## Data model: CSV rows and card records -/

/-- A CSV row as produced by `csv.DictReader`: a finite map from column
names to string values (`none` models a missing column). -/
def Row : Type := String → Option String

/-- Python `row.get(k, '')`. -/
def rget (row : Row) (k : String) : String := (row k).getD ""

/-- The `stats.power` value: a number, or a string kept symbolically. -/
inductive PowerVal where
  | num : PyFloat → PowerVal
  | str : String → PowerVal
deriving DecidableEq

/-- The `stats` sub-object of a card record. -/
structure Stats where
  energy : Option PyFloat
  might : Option PyFloat
  power : Option PowerVal
deriving DecidableEq

/-- The `rules_text` sub-object of a card record. -/
structure RulesText where
  raw : String
  keywords : List String
deriving DecidableEq

/-- One emitted card record.  Optional dictionary keys of the Python dict
(`supertypes`, `tags`, `image_url`) are modelled as `Option` fields, where
`none` means the key is absent from the record. -/
structure CardRecord where
  id : String
  name : String
  rarity : String
  domain : String
  type_line : String
  stats : Stats
  rules_text : RulesText
  supertypes : Option String
  tags : Option (List String)
  image_url : Option String
deriving DecidableEq

/-! ## Keyword extraction (`extract_keywords`) -/

/-- Scanner for `re.findall(r'\[([^\]]+)\]', text)`.  The first argument is
`none` outside a bracket span and `some acc` after an unmatched `[` with the
inner characters seen so far (in reverse).  A span closes at the next `]`;
an empty span (`[]`) is not a match, and an unterminated `[` matches
nothing, exactly as the regex requires at least one non-`]` character
followed by `]`. -/
def findBracketsGo : Option (List Char) → List Char → List (List Char)
  | _, [] => []
  | none, c :: rest =>
    if c = '[' then findBracketsGo (some []) rest
    else findBracketsGo none rest
  | some acc, c :: rest =>
    if c = ']' then
      if acc = [] then findBracketsGo none rest
      else acc.reverse :: findBracketsGo none rest
    else findBracketsGo (some (c :: acc)) rest

/-- The successive inner texts found by `re.findall(r'\[([^\]]+)\]', text)`:
leftmost non-overlapping matches, each consisting of a `[`, one or more
non-`]` characters, and a `]`. -/
def findBrackets (l : List Char) : List (List Char) := findBracketsGo none l

/-- The fixed list of known keywords scanned by `extract_keywords`. -/
def known_keywords : List String :=
  ["Accelerate", "Action", "Reaction", "Hidden", "Vision", "Legion",
   "Assault", "Defender", "Elusive", "Fearsome", "Mighty", "Temporary",
   "Quick Attack", "Overwhelm", "Lifesteal", "Barrier", "Spellshield",
   "Regeneration", "Tough", "Challenger", "Scout", "Fury", "Attune",
   "Deep", "Ephemeral", "Last Breath", "Nexus Strike", "Play", "Strike",
   "Support", "Vulnerable", "Capture", "Frostbite", "Immobile", "Recall",
   "Silence", "Stun", "Obliterate", "Rally", "Enlightened", "Reputation",
   "Lurk", "Predict", "Invoke", "Behold", "Augment", "Impact", "Formidable",
   "Equipment", "Attach", "Hallowed", "Evolve", "Husk", "Boon", "Flow"]

/-- Match of the regex `\[kw(?:\s+\d+)?\]` (under `re.IGNORECASE`) at the
start of `l`. -/
def bracketFormAt (kw : List Char) (l : List Char) : Bool :=
  match l with
  | '[' :: rest =>
    match ciPre kw rest with
    | none => false
    | some r =>
      match r with
      | ']' :: _ => true
      | _ =>
        let ws := r.takeWhile isPySpace
        let r1 := r.dropWhile isPySpace
        let ds := r1.takeWhile Char.isDigit
        let r2 := r1.dropWhile Char.isDigit
        ws ≠ [] && ds ≠ [] && (match r2 with | ']' :: _ => true | _ => false)
  | _ => false

/-- Match of the regex `\(kw` (under `re.IGNORECASE`) at the start of `l`. -/
def parenFormAt (kw : List Char) (l : List Char) : Bool :=
  match l with
  | '(' :: rest => (ciPre kw rest).isSome
  | _ => false

/-- `re.search(rf'\[{kw}(?:\s+\d+)?\]|\({kw}', text, re.IGNORECASE)`:
some position of `text` starts a bracketed or parenthesised occurrence. -/
def confirmKw (kw : List Char) : List Char → Bool
  | [] => false
  | c :: rest => bracketFormAt kw (c :: rest) || parenFormAt kw (c :: rest) || confirmKw kw rest

/-- One step of the bracket scan of `extract_keywords`: strip the matched
inner text, drop a trailing `\s+\d+` suffix to get the base keyword, and
append the stripped text when the base keyword is non-empty and not
already an entry. -/
def bracketStep (acc : List String) (m : List Char) : List String :=
  let kw : String := ⟨stripWS m⟩
  let base_kw : String := ⟨stripTrailNum (stripWS m)⟩
  if base_kw ≠ "" ∧ base_kw ∉ acc then acc ++ [kw] else acc

/-- One step of the known-keyword scan of `extract_keywords`: a keyword
whose lower-case form occurs in the lower-cased text, which is not already
an entry, and whose occurrence is confirmed by the bracket/paren regex, is
appended. -/
def knownStep (text : List Char) (acc : List String) (kw : String) : List String :=
  if strIn (kw.data.map lowerChar) (text.map lowerChar) = true ∧ kw ∉ acc then
    if confirmKw kw.data text = true then
      if kw ∉ acc then acc ++ [kw] else acc
    else acc
  else acc

/-- `extract_keywords(text)`: the bracket scan followed by the
known-keyword scan. -/
def extract_keywords (text : String) : List String :=
  known_keywords.foldl (knownStep text.data)
    ((findBrackets text.data).foldl bracketStep [])


/-! ## Row transformer (`parse_csv_row`) -/

/-- The `Energy`/`Might` coercion:
`float(v) if v and v not in ['', '-'] else None`, with a failed parse
(`ValueError`) also giving `None`. -/
def numCoerce (s : String) : Option PyFloat :=
  if s ≠ "" ∧ s ∉ (["", "-"] : List String) then pyFloatParse s else none

/-- The `Power` coercion: blank/`-` is absent; a value that is all `C`s
after upper-casing (checked as `power.upper().replace('C', '') == ''`) is
kept as the upper-cased string; otherwise `float` is attempted and a failed
parse keeps the raw string. -/
def powerCoerce (power : String) : Option PowerVal :=
  if power ≠ "" ∧ power ∉ (["", "-"] : List String) then
    if (pyUpper power).data.filter (fun c => c ≠ 'C') = [] then
      some (.str (pyUpper power))
    else
      match pyFloatParse power with
      | some v => some (.num v)
      | none => some (.str power)
  else none

/-- One raw domain cell: `row.get(k, '').strip().capitalize() if row.get(k)
else ''`. -/
def domainCell (v : Option String) : String :=
  match v with
  | some s => if s ≠ "" then pyCapitalize (pyStrip s) else ""
  | none => ""

/-- The domain string built from the two domain columns: collect the cells
that pass `truthyNotNan`, join with `', '`, defaulting to `'Colorless'`. -/
def domainOf (v1 v2 : Option String) : String :=
  let domain1 := domainCell v1
  let domain2 := domainCell v2
  let domains : List String := []
  let domains := if truthyNotNan domain1 then domains ++ [domain1] else domains
  let domains := if truthyNotNan domain2 then domains ++ [domain2] else domains
  if domains ≠ [] then joinSep ", " domains else "Colorless"

/-- The card data structure built by the body of `parse_csv_row` once the
required-field gate has passed. -/
def buildCard (row : Row) : CardRecord :=
  let name := pyStrip (rget row "Name")
  let card_id := pyStrip (rget row "Collector Number")
  let domain_str := domainOf (row "Domain 1") (row "Domain 2")
  let card_type0 := pyLower (pyStrip (rget row "types"))
  let card_type := if card_type0 = "" then "unit" else card_type0
  let subtypes := (["Subtype 1", "Subtype 2", "Subtype 3", "Subtype 4", "Subtype 5"]).foldl
    (fun acc k =>
      let subtype := pyStrip (rget row k)
      if truthyNotNan subtype then acc ++ [pyLower subtype] else acc) []
  let type_line :=
    if subtypes ≠ [] then card_type ++ " - " ++ joinSep ", " subtypes else card_type
  let supertypes := pyStrip (rget row "supertypes")
  let energy := pyStrip (rget row "Energy")
  let might := pyStrip (rget row "Might")
  let power := pyStrip (rget row "Power")
  let energy_val := numCoerce energy
  let might_val := numCoerce might
  let power_val := powerCoerce power
  let description := pyStrip (rget row "Description")
  let keywords := extract_keywords description
  let tags := pyStrip (rget row "Tags")
  { id := card_id
    name := name
    rarity := pyLower (pyStrip (rget row "Rarity"))
    domain := domain_str
    type_line := type_line
    stats := { energy := energy_val, might := might_val, power := power_val }
    rules_text := { raw := description, keywords := keywords }
    supertypes := if truthyNotNan supertypes then some (pyLower supertypes) else none
    tags :=
      if truthyNotNan tags then
        some ((((splitComma tags.data).map (fun t => (⟨stripWS t⟩ : String))).filter
          (fun t => t ≠ "")))
      else none
    image_url := none }

/-- `parse_csv_row(row)`: `none` models the Python `return None` for rows
with a blank name or collector number. -/
def parse_csv_row (row : Row) : Option CardRecord :=
  let name := pyStrip (rget row "Name")
  if name = "" then none
  else
    let card_id := pyStrip (rget row "Collector Number")
    if card_id = "" then none
    else some (buildCard row)

/-! ## Image index (`load_images`) and image attachment in `main` -/

/-- Rewrite a site-relative URL to an absolute one:
`f"https://riftdecks.com{image_url}"` when the URL starts with `/`. -/
def absolutize (u : String) : String :=
  if u.data.head? = some '/' then "https://riftdecks.com" ++ u else u

/-- One row of the image CSV as processed inside `load_images`. -/
def loadStep (images : String → Option String) (row : Row) : String → Option String :=
  let name := pyStrip (rget row "Name")
  let image_url := pyStrip (rget row "Card Image URL")
  if name ≠ "" ∧ image_url ≠ "" then
    fun k => if k = name then some (absolutize image_url) else images k
  else images

/-- `load_images`: fold the image rows into a name-to-URL mapping, starting
from the empty dict. -/
def load_images (rows : List Row) : String → Option String :=
  rows.foldl loadStep (fun _ => none)

/-- The per-card image attachment in `main`:
`if card['name'] in images: card['image_url'] = images[card['name']]`. -/
def attach_image (images : String → Option String) (card : CardRecord) : CardRecord :=
  match images card.name with
  | some url => { card with image_url := some url }
  | none => card


/-! ## Spec-side definitions

These follow the wording of the specification (not the code), to be
compared against the embedded functions. -/

/-- Spec wording for `Energy`/`Might`: blank or the literal `-` maps to
absent; otherwise parse as a floating-point number; on parse failure the
value is absent. -/
def specNum (s : String) : Option PyFloat :=
  if s = "" ∨ s = "-" then none else pyFloatParse s

/-- Spec wording for `Power`: blank or `-` is absent; a trimmed value whose
upper-cased form consists entirely of one or more `C` characters is kept as
that upper-case string; otherwise a float parse is attempted and on failure
the raw string is kept unchanged. -/
def specPower (p : String) : Option PowerVal :=
  if p = "" ∨ p = "-" then none
  else if (pyUpper p).data ≠ [] ∧ (pyUpper p).data.all (fun c => c = 'C') then
    some (.str (pyUpper p))
  else
    match pyFloatParse p with
    | some v => some (.num v)
    | none => some (.str p)

/-- Spec wording for one domain column: trim and capitalize; a value that
is empty or equals `nan` case-insensitively is absent. -/
def specDomainOf (v : Option String) : Option String :=
  let c := pyCapitalize (pyStrip (v.getD ""))
  if c = "" ∨ pyLower c = "nan" then none else some c

/-- Spec wording for the domain string: join the present domains with
`', '` in column order; if both are absent the result is `Colorless`. -/
def specDomainStr (v1 v2 : Option String) : String :=
  match specDomainOf v1, specDomainOf v2 with
  | some a, some b => a ++ ", " ++ b
  | some a, none => a
  | none, some b => b
  | none, none => "Colorless"

/-- Spec wording (amended) for the bracket scan: each found span's inner
text is trimmed; the trimmed text is appended in first-seen order exactly
when its base form (trailing whitespace-and-digits suffix removed) is
non-empty and is not already an entry of the list. -/
def specBracketScan : List (List Char) → List String → List String
  | [], acc => acc
  | m :: ms, acc =>
    let kw : String := ⟨stripWS m⟩
    if baseStr kw ≠ "" ∧ (∀ e ∈ acc, e ≠ baseStr kw) then specBracketScan ms (acc ++ [kw])
    else specBracketScan ms acc

/-- Spec wording for the image index: the valid entries, in row order, with
relative URLs made absolute. -/
def imageEntry (row : Row) : Option (String × String) :=
  let name := pyStrip (rget row "Name")
  let url := pyStrip (rget row "Card Image URL")
  if name ≠ "" ∧ url ≠ "" then some (name, absolutize url) else none

/-- Spec wording for the image index entries of all rows. -/
def imageEntries (rows : List Row) : List (String × String) :=
  rows.filterMap imageEntry

/-- Spec wording for the image index lookup: the mapping keyed by name in
which the last occurrence of a repeated name wins. -/
def specImageIndex (rows : List Row) (k : String) : Option String :=
  ((imageEntries rows).reverse.find? (fun e => e.1 == k)).map Prod.snd

/-! ## Concrete inputs used by the witnesses -/

/-- A well-formed primary-CSV row exercising domains, stats and keywords. -/
def sampleRow : Row := fun k =>
  if k = "Name" then some "Test Card"
  else if k = "Collector Number" then some "OGN-001"
  else if k = "Domain 1" then some "fire"
  else if k = "Domain 2" then some "water"
  else if k = "types" then some "Unit"
  else if k = "Energy" then some "3"
  else if k = "Might" then some "X"
  else if k = "Power" then some "CC"
  else if k = "Description" then some "[Quick Attack] this unit hits first."
  else none

/-- A row whose name is whitespace only, hence skipped. -/
def blankRow : Row := fun k =>
  if k = "Name" then some "   "
  else if k = "Collector Number" then some "OGN-002"
  else none

/-- An image-CSV row with a site-relative URL. -/
def imgRow : Row := fun k =>
  if k = "Name" then some "Test Card"
  else if k = "Card Image URL" then some "/img/foo.png"
  else none

/-- Placeholder record used only to make `Option.getD` applicable. -/
def dummyCard : CardRecord :=
  { id := "", name := "", rarity := "", domain := "", type_line := ""
    stats := { energy := none, might := none, power := none }
    rules_text := { raw := "", keywords := [] }
    supertypes := none, tags := none, image_url := none }

/-- The record produced for `sampleRow`. -/
def sampleParsed : CardRecord := (parse_csv_row sampleRow).getD dummyCard
/-- A row whose `Energy` is `NaN` and whose `Might` is `inf`. -/
def nanRow : Row := fun k =>
  if k = "Name" then some "Weird"
  else if k = "Collector Number" then some "OGN-003"
  else if k = "Energy" then some "NaN"
  else if k = "Might" then some "inf"
  else none

/-- The record produced for `nanRow`. -/
def nanParsed : CardRecord := (parse_csv_row nanRow).getD dummyCard


/-! ## Basic lemmas about the embedded helpers -/

lemma pyLower_eq_empty_iff (s : String) : pyLower s = "" ↔ s = "" := by
  constructor
  · intro h
    have hd : s.data.map lowerChar = ([] : List Char) := congrArg String.data h
    exact String.ext (List.map_eq_nil_iff.mp hd)
  · intro h; subst h; rfl

lemma truthyNotNan_iff (s : String) :
    truthyNotNan s = true ↔ ¬(s = "" ∨ pyLower s = "nan") := by
  simp only [truthyNotNan, Bool.and_eq_true, bne_iff_ne, ne_eq]
  rw [pyLower_eq_empty_iff]
  tauto

lemma numCoerce_eq_specNum (s : String) : numCoerce s = specNum s := by
  unfold numCoerce specNum
  by_cases h1 : s = ""
  · simp [h1]
  · by_cases h2 : s = "-" <;> simp [h1, h2]

lemma filter_ne_eq_nil_iff_all (l : List Char) :
    (l.filter (fun c => c ≠ 'C') = []) ↔ l.all (fun c => c = 'C') = true := by
  induction l with
  | nil => simp
  | cons c rest ih =>
    by_cases hc : c = 'C' <;> simp [List.filter_cons, List.all_cons, hc, ih]

lemma pyUpper_data_ne_nil (p : String) (h : p ≠ "") : (pyUpper p).data ≠ [] := by
  intro hnil
  apply h
  have hd : p.data.map upperChar = ([] : List Char) := hnil
  exact String.ext (List.map_eq_nil_iff.mp hd)

lemma powerCoerce_eq_specPower (p : String) : powerCoerce p = specPower p := by
  unfold powerCoerce specPower
  by_cases h1 : p = ""
  · simp [h1]
  · by_cases h2 : p = "-"
    · simp [h1, h2]
    · have hmem : p ∉ (["", "-"] : List String) := by simp [h1, h2]
      rw [if_pos ⟨h1, hmem⟩, if_neg (show ¬(p = "" ∨ p = "-") by tauto)]
      by_cases hC : (pyUpper p).data.filter (fun c => c ≠ 'C') = []
      · rw [if_pos hC, if_pos ⟨pyUpper_data_ne_nil p h1, (filter_ne_eq_nil_iff_all _).mp hC⟩]
      · rw [if_neg hC, if_neg (fun hk => hC ((filter_ne_eq_nil_iff_all _).mpr hk.2))]

lemma parse_csv_row_some_iff (row : Row) (r : CardRecord) :
    parse_csv_row row = some r ↔
      pyStrip (rget row "Name") ≠ "" ∧ pyStrip (rget row "Collector Number") ≠ "" ∧
        r = buildCard row := by
  unfold parse_csv_row
  by_cases h1 : pyStrip (rget row "Name") = ""
  · simp [h1]
  · by_cases h2 : pyStrip (rget row "Collector Number") = "" <;> simp [h1, h2, eq_comm]

lemma buildCard_domain (row : Row) :
    (buildCard row).domain = domainOf (row "Domain 1") (row "Domain 2") := rfl

lemma buildCard_power (row : Row) :
    (buildCard row).stats.power = powerCoerce (pyStrip (rget row "Power")) := rfl

lemma buildCard_energy (row : Row) :
    (buildCard row).stats.energy = numCoerce (pyStrip (rget row "Energy")) := rfl

lemma buildCard_might (row : Row) :
    (buildCard row).stats.might = numCoerce (pyStrip (rget row "Might")) := rfl

lemma domainCell_eq (v : Option String) :
    domainCell v = pyCapitalize (pyStrip (v.getD "")) := by
  cases v with
  | none => rfl
  | some s =>
    by_cases h : s = ""
    · subst h; rfl
    · simp [domainCell, h]

lemma specDomainOf_eq (v : Option String) :
    specDomainOf v =
      if truthyNotNan (domainCell v) = true then some (domainCell v) else none := by
  simp only [specDomainOf]
  rw [← domainCell_eq]
  by_cases h : truthyNotNan (domainCell v) = true
  · rw [if_pos h, if_neg ((truthyNotNan_iff _).mp h)]
  · rw [if_neg h, if_pos (by by_contra hcon; exact h ((truthyNotNan_iff _).mpr hcon))]

lemma truthy_ne_empty (s : String) (h : truthyNotNan s = true) : s ≠ "" :=
  fun e => ((truthyNotNan_iff s).mp h) (Or.inl e)

lemma string_append_eq_empty_iff (a b : String) : a ++ b = "" ↔ a = "" ∧ b = "" := by
  constructor
  · intro h
    have hd : a.data ++ b.data = ([] : List Char) := by
      have hq := congrArg String.data h
      rwa [String.data_append] at hq
    rcases List.append_eq_nil.mp hd with ⟨ha, hb⟩
    exact ⟨String.ext ha, String.ext hb⟩
  · rintro ⟨ha, hb⟩; subst ha; subst hb; rfl

lemma domainOf_eq_spec (v1 v2 : Option String) :
    domainOf v1 v2 = specDomainStr v1 v2 := by
  simp only [domainOf, specDomainStr, specDomainOf_eq]
  by_cases h1 : truthyNotNan (domainCell v1) = true <;>
    by_cases h2 : truthyNotNan (domainCell v2) = true <;>
      simp [h1, h2, joinSep]

lemma specDomainOf_some_ne_empty (v : Option String) (a : String)
    (h : specDomainOf v = some a) : a ≠ "" := by
  rw [specDomainOf_eq] at h
  by_cases ht : truthyNotNan (domainCell v) = true
  · rw [if_pos ht] at h
    cases h
    exact truthy_ne_empty _ ht
  · rw [if_neg ht] at h
    cases h

lemma domainOf_ne_empty (v1 v2 : Option String) : domainOf v1 v2 ≠ "" := by
  rw [domainOf_eq_spec]
  unfold specDomainStr
  cases hv1 : specDomainOf v1 with
  | some a =>
    cases hv2 : specDomainOf v2 with
    | some b =>
      intro h
      rcases (string_append_eq_empty_iff _ _).mp h with ⟨h1, -⟩
      rcases (string_append_eq_empty_iff _ _).mp h1 with ⟨-, hsep⟩
      exact absurd hsep (by decide)
    | none => exact specDomainOf_some_ne_empty v1 a hv1
  | none =>
    cases hv2 : specDomainOf v2 with
    | some b => exact specDomainOf_some_ne_empty v2 b hv2
    | none => decide

/-! ## Claims C3, C4, C5, C8 -/

/-- C3: a row whose trimmed `Name` or trimmed `Collector Number` is empty
produces no record; any other row produces exactly one record, whose `id`
is the trimmed collector number and whose `name` is the trimmed name, both
non-empty. -/
theorem claim_C3 : ∀ row : Row,
    ((pyStrip (rget row "Name") = "" ∨ pyStrip (rget row "Collector Number") = "") →
      parse_csv_row row = none) ∧
    (pyStrip (rget row "Name") ≠ "" → pyStrip (rget row "Collector Number") ≠ "" →
      ∃ r, parse_csv_row row = some r ∧ r.id = pyStrip (rget row "Collector Number") ∧
        r.name = pyStrip (rget row "Name") ∧ r.id ≠ "" ∧ r.name ≠ "") := by
  intro row
  constructor
  · intro h
    unfold parse_csv_row
    rcases h with h | h
    · rw [if_pos h]
    · by_cases h1 : pyStrip (rget row "Name") = ""
      · rw [if_pos h1]
      · rw [if_neg h1, if_pos h]
  · intro h1 h2
    refine ⟨buildCard row, (parse_csv_row_some_iff row (buildCard row)).mpr ⟨h1, h2, rfl⟩,
      rfl, rfl, h2, h1⟩

/-- C3 witness: a concrete skipped row and a concrete accepted row. -/
theorem claim_C3_witness :
    parse_csv_row blankRow = none ∧
    (∃ r, parse_csv_row sampleRow = some r ∧
      r.id = pyStrip (rget sampleRow "Collector Number") ∧
      r.name = pyStrip (rget sampleRow "Name") ∧ r.id ≠ "" ∧ r.name ≠ "") :=
  ⟨(claim_C3 blankRow).1 (Or.inl (by decide)),
   (claim_C3 sampleRow).2 (by decide) (by decide)⟩

/-- C4: every emitted record's `domain` is the trimmed-and-capitalized
domain cells with empty and `nan` (case-insensitive) cells absent, joined
with `', '` in column order, `Colorless` when both are absent; it is never
the empty string, and `fire`/`water` yield `Fire, Water`. -/
theorem claim_C4 :
    (∀ (row : Row) (r : CardRecord), parse_csv_row row = some r →
      r.domain = specDomainStr (row "Domain 1") (row "Domain 2") ∧ r.domain ≠ "") ∧
    specDomainStr (some "fire") (some "water") = "Fire, Water" := by
  refine ⟨?_, by decide⟩
  intro row r h
  obtain ⟨-, -, rfl⟩ := (parse_csv_row_some_iff row r).mp h
  rw [buildCard_domain]
  exact ⟨domainOf_eq_spec _ _, domainOf_ne_empty _ _⟩

/-- C4 witness: the sample row has domains `fire` and `water`. -/
theorem claim_C4_witness :
    parse_csv_row sampleRow = some sampleParsed ∧
    sampleParsed.domain = specDomainStr (sampleRow "Domain 1") (sampleRow "Domain 2") ∧
    sampleParsed.domain ≠ "" :=
  ⟨by decide, claim_C4.1 sampleRow sampleParsed (by decide)⟩

/-- C5: every emitted record's `stats.power` follows the spec's `Power`
coercion (blank/`-` absent, all-`C` kept upper-cased, then float parse with
raw-string fallback); `CC` gives the string `CC`, `3` the number `3.0`, and
`X` the string `X`. -/
theorem claim_C5 :
    (∀ (row : Row) (r : CardRecord), parse_csv_row row = some r →
      r.stats.power = specPower (pyStrip (rget row "Power"))) ∧
    specPower "CC" = some (.str "CC") ∧
    specPower "3" = some (.num (.finite 3)) ∧
    specPower "X" = some (.str "X") := by
  refine ⟨?_, by decide, by decide, by decide⟩
  intro row r h
  obtain ⟨-, -, rfl⟩ := (parse_csv_row_some_iff row r).mp h
  rw [buildCard_power, powerCoerce_eq_specPower]

/-- C5 witness: the sample row has `Power` = `CC`. -/
theorem claim_C5_witness :
    parse_csv_row sampleRow = some sampleParsed ∧
    sampleParsed.stats.power = specPower (pyStrip (rget sampleRow "Power")) :=
  ⟨by decide, claim_C5.1 sampleRow sampleParsed (by decide)⟩

/-- C8: every emitted record's `stats.energy` and `stats.might` follow the
spec's numeric coercion: blank or `-` absent, else float parse, absent on
parse failure, with no exception escaping (the embedded parser is total). -/
theorem claim_C8 : ∀ (row : Row) (r : CardRecord), parse_csv_row row = some r →
    r.stats.energy = specNum (pyStrip (rget row "Energy")) ∧
    r.stats.might = specNum (pyStrip (rget row "Might")) := by
  intro row r h
  obtain ⟨-, -, rfl⟩ := (parse_csv_row_some_iff row r).mp h
  rw [buildCard_energy, buildCard_might, numCoerce_eq_specNum, numCoerce_eq_specNum]
  exact ⟨rfl, rfl⟩

/-- C8 witness: the sample row has `Energy` = `3` (a parse success) and
`Might` = `X` (a parse failure, hence absent). -/
theorem claim_C8_witness :
    parse_csv_row sampleRow = some sampleParsed ∧
    (sampleParsed.stats.energy = specNum (pyStrip (rget sampleRow "Energy")) ∧
     sampleParsed.stats.might = specNum (pyStrip (rget sampleRow "Might"))) ∧
    sampleParsed.stats.energy = some (.finite 3) ∧ sampleParsed.stats.might = none :=
  ⟨by decide, claim_C8 sampleRow sampleParsed (by decide), by decide, by decide⟩

/-! ## Lemmas about the keyword extraction machinery -/

lemma isPre_iff (n : List Char) : ∀ h : List Char, isPre n h = true ↔ ∃ t, h = n ++ t := by
  induction n with
  | nil =>
    intro h
    simp only [isPre, List.nil_append, true_iff]
    exact ⟨h, rfl⟩
  | cons a as ih =>
    intro h
    cases h with
    | nil => simp [isPre]
    | cons b bs =>
      simp only [isPre, Bool.and_eq_true, beq_iff_eq, ih, List.cons_append, List.cons.injEq]
      constructor
      · rintro ⟨rfl, t, rfl⟩; exact ⟨t, rfl, rfl⟩
      · rintro ⟨t, rfl, rfl⟩; exact ⟨rfl, t, rfl⟩

lemma strIn_iff (n : List Char) : ∀ h : List Char, strIn n h = true ↔ ∃ a t, h = a ++ (n ++ t) := by
  intro h
  induction h with
  | nil =>
    simp only [strIn, isPre_iff]
    constructor
    · rintro ⟨t, ht⟩; exact ⟨[], t, ht⟩
    · rintro ⟨a, t, ht⟩
      rcases List.append_eq_nil.mp ht.symm with ⟨-, h2⟩
      exact ⟨t, h2.symm⟩
  | cons c rest ih =>
    simp only [strIn, Bool.or_eq_true, isPre_iff, ih]
    constructor
    · rintro (⟨t, ht⟩ | ⟨a, t, ht⟩)
      · exact ⟨[], t, ht⟩
      · exact ⟨c :: a, t, by rw [List.cons_append, ← ht]⟩
    · rintro ⟨a, t, ht⟩
      cases a with
      | nil => exact Or.inl ⟨t, ht⟩
      | cons x xs =>
        rw [List.cons_append] at ht
        injection ht with h1 h2
        exact Or.inr ⟨xs, t, h2⟩

lemma ciPre_of_map_eq (kw : List Char) :
    ∀ (w r : List Char), w.map lowerChar = kw.map lowerChar → ciPre kw (w ++ r) = some r := by
  induction kw with
  | nil =>
    intro w r h
    cases w with
    | nil => rfl
    | cons x xs => simp at h
  | cons k ks ih =>
    intro w r h
    cases w with
    | nil => simp at h
    | cons x xs =>
      simp only [List.map_cons, List.cons.injEq] at h
      rw [List.cons_append]
      show ciPre (k :: ks) (x :: (xs ++ r)) = some r
      simp only [ciPre]
      rw [if_pos h.1, ih xs r h.2]

lemma confirmKw_append (kw : List Char) : ∀ (a l : List Char),
    (bracketFormAt kw l || parenFormAt kw l) = true → confirmKw kw (a ++ l) = true := by
  intro a
  induction a with
  | nil =>
    intro l h
    cases l with
    | nil => simp [bracketFormAt, parenFormAt] at h
    | cons c rest =>
      rw [List.nil_append]
      have h' : bracketFormAt kw (c :: rest) = true ∨ parenFormAt kw (c :: rest) = true := by
        simpa using h
      rcases h' with hb | hp
      · simp [confirmKw, hb]
      · simp [confirmKw, hp]
  | cons x a ih =>
    intro l h
    rw [List.cons_append]
    have hr := ih l h
    simp [confirmKw, hr]

lemma knownStep_subset (t : List Char) (acc : List String) (kw x : String)
    (h : x ∈ acc) : x ∈ knownStep t acc kw := by
  unfold knownStep
  split
  · split
    · split
      · exact List.mem_append_left _ h
      · exact h
    · exact h
  · exact h

lemma knownFold_subset (t : List Char) (l : List String) :
    ∀ (acc : List String) (x : String), x ∈ acc → x ∈ l.foldl (knownStep t) acc := by
  induction l with
  | nil => intro acc x h; exact h
  | cons kw rest ih =>
    intro acc x h
    rw [List.foldl_cons]
    exact ih _ _ (knownStep_subset t acc kw x h)

lemma knownFold_mem (t : List Char) (K : String)
    (hsub : strIn (K.data.map lowerChar) (t.map lowerChar) = true)
    (hconf : confirmKw K.data t = true) :
    ∀ (l : List String) (acc : List String), K ∈ l → K ∈ l.foldl (knownStep t) acc := by
  intro l
  induction l with
  | nil => intro acc h; exact absurd h (List.not_mem_nil K)
  | cons kw rest ih =>
    intro acc hKl
    rw [List.foldl_cons]
    rcases List.mem_cons.mp hKl with rfl | hKrest
    · by_cases hacc : K ∈ acc
      · exact knownFold_subset t rest _ K (knownStep_subset t acc K K hacc)
      · have hmem : K ∈ knownStep t acc K := by
          unfold knownStep
          rw [if_pos ⟨hsub, hacc⟩, if_pos hconf, if_pos hacc]
          exact List.mem_append_right _ (List.mem_singleton.mpr rfl)
        exact knownFold_subset t rest _ K hmem
    · exact ih _ hKrest

lemma bracketStep_count (acc : List String) (m : List Char) (s : String)
    (hs : baseStr s = s) (h : acc.count s ≤ 1) : (bracketStep acc m).count s ≤ 1 := by
  simp only [bracketStep]
  split
  · rename_i hcond
    rw [List.count_append]
    by_cases heq : s = (⟨stripWS m⟩ : String)
    · have hbase : (⟨stripTrailNum (stripWS m)⟩ : String) = s := by
        have h1 : (⟨stripTrailNum (stripWS m)⟩ : String) = baseStr (⟨stripWS m⟩ : String) := rfl
        rw [h1, ← heq, hs]
      have hnot : s ∉ acc := hbase ▸ hcond.2
      have hzero : acc.count s = 0 := List.count_eq_zero.mpr hnot
      have hone : List.count s [(⟨stripWS m⟩ : String)] ≤ 1 := by
        rw [← heq]
        simp
      omega
    · have hzero : List.count s [(⟨stripWS m⟩ : String)] = 0 := by
        simp [heq]
      omega
  · exact h

lemma knownStep_count (t : List Char) (acc : List String) (kw s : String)
    (h : acc.count s ≤ 1) : (knownStep t acc kw).count s ≤ 1 := by
  unfold knownStep
  split
  · split
    · split
      · rename_i h1 h2 h3
        rw [List.count_append]
        by_cases heq : s = kw
        · have hzero : acc.count s = 0 := List.count_eq_zero.mpr (heq ▸ h3)
          have hone : List.count s [kw] ≤ 1 := by
            rw [heq]
            simp
          omega
        · have hzero : List.count s [kw] = 0 := by simp [heq]
          omega
      · exact h
    · exact h
  · exact h

lemma bracketFold_count (ms : List (List Char)) (s : String) (hs : baseStr s = s) :
    ∀ acc : List String, acc.count s ≤ 1 → (ms.foldl bracketStep acc).count s ≤ 1 := by
  induction ms with
  | nil => intro acc h; exact h
  | cons m rest ih =>
    intro acc h
    rw [List.foldl_cons]
    exact ih _ (bracketStep_count acc m s hs h)

lemma knownFold_count (t : List Char) (l : List String) (s : String) :
    ∀ acc : List String, acc.count s ≤ 1 → (l.foldl (knownStep t) acc).count s ≤ 1 := by
  induction l with
  | nil => intro acc h; exact h
  | cons kw rest ih =>
    intro acc h
    rw [List.foldl_cons]
    exact ih _ (knownStep_count t acc kw s h)

/-- Any candidate keyword that equals its own base form occurs at most once
in an extraction result: the bracket scan refuses to append it once its
base form is present, and the known-keyword scan refuses to append any
existing entry. -/
lemma extract_count_le_one (text : String) (s : String) (hs : baseStr s = s) :
    (extract_keywords text).count s ≤ 1 := by
  unfold extract_keywords
  apply knownFold_count
  apply bracketFold_count _ _ hs
  simp

lemma data_mk (l : List Char) : (⟨l⟩ : String).data = l := rfl

lemma lowerChar_lbracket : lowerChar '[' = '[' := rfl

/-! ## Claims C1, C2, C6, C9 -/

/-- C1 counterexample: a text with two `[Assault 2]` spans produces the
entry `Assault 2` twice, because the presence check compares the base
keyword (`Assault`) with the stored entries (`Assault 2`) and never
matches. -/
theorem claim_C1_counterexample :
    ¬ (extract_keywords "[Assault 2][Assault 2]").Nodup := by decide

/-- C1 (amended): the keyword list can contain duplicates, but only among
bracketed entries bearing a trailing numeric suffix; every entry that
equals its own base form (no trailing whitespace-and-digits suffix) occurs
at most once. -/
theorem claim_C1_amended : ∀ (text s : String), baseStr s = s →
    (extract_keywords text).count s ≤ 1 :=
  fun text s hs => extract_count_le_one text s hs

/-- C1 witness: `Quick Attack` is its own base form and occurs at most once
in the extraction for `[Quick Attack]`. -/
theorem claim_C1_witness :
    baseStr "Quick Attack" = "Quick Attack" ∧
    (extract_keywords "[Quick Attack]").count "Quick Attack" ≤ 1 :=
  ⟨by decide, claim_C1_amended "[Quick Attack]" "Quick Attack" (by decide)⟩

/-- C2 counterexample: for the text `[ Assault ][Assault 2]` the claim
predicts the entries `[" Assault ", "Assault 2"]` (verbatim inner texts,
exact-string presence check), but the code produces `["Assault"]`: the
inner text is stripped before being appended, and the span `Assault 2` is
dropped because its base form `Assault` is already an entry. -/
theorem claim_C2_counterexample :
    findBrackets "[ Assault ][Assault 2]".data = [" Assault ".data, "Assault 2".data] ∧
    extract_keywords "[ Assault ][Assault 2]" = ["Assault"] ∧
    " Assault " ∉ extract_keywords "[ Assault ][Assault 2]" ∧
    "Assault 2" ∉ extract_keywords "[ Assault ][Assault 2]" := by
  exact ⟨by decide, by decide, by decide, by decide⟩

/-- C2 (amended): for every found span, the inner text trimmed of
surrounding whitespace is the candidate; it is appended in first-seen order
exactly when its base form (trailing whitespace-and-digits suffix removed)
is non-empty and is not already an entry under exact string comparison (so
a span `Assault 2` is skipped whenever the entry `Assault` is present). -/
theorem claim_C2_amended :
    (∀ (ms : List (List Char)) (acc : List String),
      ms.foldl bracketStep acc = specBracketScan ms acc) ∧
    (findBrackets "[Assault][Assault 2]".data).foldl bracketStep [] = ["Assault"] := by
  constructor
  · intro ms
    induction ms with
    | nil => intro acc; rfl
    | cons m rest ih =>
      intro acc
      rw [List.foldl_cons]
      show rest.foldl bracketStep (bracketStep acc m) = specBracketScan (m :: rest) acc
      simp only [bracketStep, specBracketScan, baseStr, data_mk]
      by_cases hc : (⟨stripTrailNum (stripWS m)⟩ : String) ≠ "" ∧
          (⟨stripTrailNum (stripWS m)⟩ : String) ∉ acc
      · rw [if_pos hc, if_pos ⟨hc.1, fun e he heq => hc.2 (heq ▸ he)⟩, ih]
      · rw [if_neg hc, if_neg, ih]
        intro hk
        exact hc ⟨hk.1, fun hmem => hk.2 _ hmem rfl⟩
  · decide

/-- C6: whenever the rules text contains the substring `[Quick Attack]`,
the extracted keyword list contains the exact string `Quick Attack` exactly
once. -/
theorem claim_C6 : ∀ text : String, strIn "[Quick Attack]".data text.data = true →
    (extract_keywords text).count "Quick Attack" = 1 := by
  intro text h
  have hle : (extract_keywords text).count "Quick Attack" ≤ 1 :=
    extract_count_le_one text "Quick Attack" (by decide)
  obtain ⟨a, t, ht⟩ := (strIn_iff _ _).mp h
  have hdecomp : text.data = a ++ ('[' :: ("Quick Attack".data ++ (']' :: t))) := by
    rw [ht]
    congr 1
  have hconf : confirmKw "Quick Attack".data text.data = true := by
    rw [hdecomp]
    apply confirmKw_append
    have hb : bracketFormAt "Quick Attack".data
        ('[' :: ("Quick Attack".data ++ (']' :: t))) = true := by
      show (match ciPre "Quick Attack".data ("Quick Attack".data ++ (']' :: t)) with
        | none => false
        | some r =>
          match r with
          | ']' :: _ => true
          | _ =>
            let ws := r.takeWhile isPySpace
            let r1 := r.dropWhile isPySpace
            let ds := r1.takeWhile Char.isDigit
            let r2 := r1.dropWhile Char.isDigit
            ws ≠ [] && ds ≠ [] && (match r2 with | ']' :: _ => true | _ => false)) = true
      rw [ciPre_of_map_eq _ _ _ rfl]
      rfl
    rw [hb]
    simp
  have hsub : strIn ("Quick Attack".data.map lowerChar) (text.data.map lowerChar) = true := by
    apply (strIn_iff _ _).mpr
    refine ⟨a.map lowerChar ++ ['['], (']' :: t).map lowerChar, ?_⟩
    rw [hdecomp]
    simp [List.map_append, List.map_cons, List.append_assoc, lowerChar_lbracket]
  have hmem : "Quick Attack" ∈ extract_keywords text := by
    unfold extract_keywords
    exact knownFold_mem text.data "Quick Attack" hsub hconf known_keywords _ (by decide)
  have hge : 0 < (extract_keywords text).count "Quick Attack" :=
    List.count_pos_iff.mpr hmem
  omega

/-- C6 witness: a concrete text containing `[Quick Attack]`. -/
theorem claim_C6_witness :
    strIn "[Quick Attack]".data "Gains [Quick Attack] while attacking.".data = true ∧
    (extract_keywords "Gains [Quick Attack] while attacking.").count "Quick Attack" = 1 :=
  ⟨by decide, claim_C6 "Gains [Quick Attack] while attacking." (by decide)⟩

/-- C9: the known-keyword confirmation is case-insensitive and the
parenthesised form needs nothing after the keyword: any text containing
`(` immediately followed by a case-variant of a known keyword `K` (even as
a prefix of a longer word), or a bracketed case-variant `[k]`, puts the
bare canonical name `K` into the result. -/
theorem claim_C9 : ∀ (K text : String) (v : List Char),
    K ∈ known_keywords →
    ((∃ a t, text.data = a ++ (('(' :: v) ++ t)) ∨
      (∃ a t, text.data = a ++ (('[' :: (v ++ [']'])) ++ t))) →
    v.map lowerChar = K.data.map lowerChar →
    K ∈ extract_keywords text := by
  intro K text v hK hocc hv
  have hconf : confirmKw K.data text.data = true := by
    rcases hocc with ⟨a, t, ht⟩ | ⟨a, t, ht⟩
    · rw [ht, List.cons_append]
      apply confirmKw_append
      have hp : parenFormAt K.data ('(' :: (v ++ t)) = true := by
        show (ciPre K.data (v ++ t)).isSome = true
        rw [ciPre_of_map_eq _ _ _ hv]
        rfl
      rw [hp]
      simp
    · rw [ht]
      apply confirmKw_append
      have hb : bracketFormAt K.data ('[' :: (v ++ [']']) ++ t) = true := by
        rw [List.cons_append, List.append_assoc, List.singleton_append]
        show (match ciPre K.data (v ++ (']' :: t)) with
          | none => false
          | some r =>
            match r with
            | ']' :: _ => true
            | _ =>
              let ws := r.takeWhile isPySpace
              let r1 := r.dropWhile isPySpace
              let ds := r1.takeWhile Char.isDigit
              let r2 := r1.dropWhile Char.isDigit
              ws ≠ [] && ds ≠ [] && (match r2 with | ']' :: _ => true | _ => false)) = true
        rw [ciPre_of_map_eq _ _ _ hv]
        rfl
      rw [hb]
      simp
  have hsub : strIn (K.data.map lowerChar) (text.data.map lowerChar) = true := by
    apply (strIn_iff _ _).mpr
    rcases hocc with ⟨a, t, ht⟩ | ⟨a, t, ht⟩
    · refine ⟨a.map lowerChar ++ ['('], t.map lowerChar, ?_⟩
      rw [ht, ← hv]
      simp only [List.map_append, List.map_cons, List.append_assoc, List.cons_append]
      rfl
    · refine ⟨a.map lowerChar ++ ['['], [']'].map lowerChar ++ t.map lowerChar, ?_⟩
      rw [ht, ← hv]
      simp only [List.map_append, List.map_cons, List.append_assoc, List.cons_append]
      rfl
  unfold extract_keywords
  exact knownFold_mem text.data K hsub hconf known_keywords _ hK

/-- C9 witness: the text `(playing` causes the keyword `Play` to be
appended, although `playing` only has `play` as a prefix and there is no
closing parenthesis. -/
theorem claim_C9_witness :
    "Play" ∈ known_keywords ∧ "Play" ∈ extract_keywords "(playing" :=
  ⟨by decide,
   claim_C9 "Play" "(playing" "play".data (by decide)
     (Or.inl ⟨[], "ing".data, by decide⟩) (by decide)⟩

/-! ## Claim C7: image index and attachment -/

lemma buildCard_image (row : Row) : (buildCard row).image_url = none := rfl

lemma find_append {α : Type} (p : α → Bool) :
    ∀ l1 l2 : List α, (l1 ++ l2).find? p =
      match l1.find? p with
      | some x => some x
      | none => l2.find? p := by
  intro l1 l2
  induction l1 with
  | nil => simp
  | cons a rest ih =>
    by_cases hp : p a = true
    · simp [List.find?_cons, hp]
    · have hp' : p a = false := by
        rw [← Bool.not_eq_true]
        exact hp
      simp [List.cons_append, List.find?_cons, hp', ih]

lemma load_images_aux (rows : List Row) :
    ∀ (f : String → Option String) (k : String),
      (rows.foldl loadStep f) k =
        match (imageEntries rows).reverse.find? (fun e => e.1 == k) with
        | some e => some e.2
        | none => f k := by
  induction rows with
  | nil => intro f k; simp [imageEntries]
  | cons r rest ih =>
    intro f k
    rw [List.foldl_cons]
    rw [ih (loadStep f r) k]
    have hentries : imageEntries (r :: rest) =
        match imageEntry r with
        | some e => e :: imageEntries rest
        | none => imageEntries rest := by
      simp [imageEntries, List.filterMap_cons]
      cases imageEntry r <;> simp
    cases he : imageEntry r with
    | none =>
      rw [hentries, he]
      have hstep : loadStep f r = f := by
        simp only [loadStep]
        simp only [imageEntry] at he
        split at he
        · cases he
        · rename_i hcond
          rw [if_neg hcond]
      rw [hstep]
    | some e =>
      rw [hentries, he, List.reverse_cons, find_append]
      simp only [imageEntry] at he
      split at he
      · rename_i hcond
        cases he
        have hstep : loadStep f r = fun k =>
            if k = pyStrip (rget r "Name") then some (absolutize (pyStrip (rget r "Card Image URL")))
            else f k := by
          simp only [loadStep]
          rw [if_pos hcond]
        cases hfind : (imageEntries rest).reverse.find? (fun e => e.1 == k) with
        | some x => rfl
        | none =>
          rw [hstep]
          by_cases hk : k = pyStrip (rget r "Name")
          · have : ((pyStrip (rget r "Name"), absolutize (pyStrip (rget r "Card Image URL"))) :
                String × String).1 == k := by
              rw [hk]
              simp
            simp [List.find?_cons, this, hk]
          · have : (((pyStrip (rget r "Name"), absolutize (pyStrip (rget r "Card Image URL"))) :
                String × String).1 == k) = false := by
              simp
              intro he2
              exact absurd he2.symm hk
            simp [List.find?_cons, this, hk]
      · cases he

/-- C7: the image index maps each non-blank name to its last given URL,
with site-relative URLs (leading `/`) made absolute by prefixing the fixed
origin; a card whose name is a key receives exactly the mapped URL, and a
card whose name is not a key keeps no `image_url` at all. -/
theorem claim_C7 :
    (∀ (rows : List Row) (k : String), load_images rows k = specImageIndex rows k) ∧
    absolutize "/img/foo.png" = "https://riftdecks.com/img/foo.png" ∧
    (∀ (imgs : String → Option String) (c : CardRecord) (url : String),
      imgs c.name = some url → (attach_image imgs c).image_url = some url) ∧
    (∀ (imgs : String → Option String) (row : Row) (r : CardRecord),
      parse_csv_row row = some r → imgs r.name = none →
      (attach_image imgs r).image_url = none) := by
  refine ⟨?_, by decide, ?_, ?_⟩
  · intro rows k
    rw [load_images, load_images_aux rows (fun _ => none) k, specImageIndex]
    cases (imageEntries rows).reverse.find? (fun e => e.1 == k) <;> rfl
  · intro imgs c url h
    unfold attach_image
    rw [h]
  · intro imgs row r hparse h
    unfold attach_image
    rw [h]
    obtain ⟨-, -, rfl⟩ := (parse_csv_row_some_iff row r).mp hparse
    exact buildCard_image row

/-- C7 witness: one image row with a relative URL, looked up by the sample
card's name; and a lookup under a name that is not a key. -/
theorem claim_C7_witness :
    load_images [imgRow] "Test Card" = specImageIndex [imgRow] "Test Card" ∧
    absolutize "/img/foo.png" = "https://riftdecks.com/img/foo.png" ∧
    (attach_image (load_images [imgRow]) sampleParsed).image_url =
      some "https://riftdecks.com/img/foo.png" ∧
    (attach_image (fun _ => none) sampleParsed).image_url = none :=
  ⟨claim_C7.1 [imgRow] "Test Card", claim_C7.2.1,
   claim_C7.2.2.1 (load_images [imgRow]) sampleParsed "https://riftdecks.com/img/foo.png"
     (by decide),
   claim_C7.2.2.2 (fun _ => none) sampleRow sampleParsed (by decide) rfl⟩

/-! ## Claim C10: non-finite float literals in Energy/Might -/

lemma isPySpace_lowerChar_fix (c : Char) (h : isPySpace c = true) : lowerChar c = c := by
  have h' : ((((c = ' ' ∨ c = '\t') ∨ c = '\n') ∨ c = '\x0d') ∨ c = '\x0b') ∨ c = '\x0c' := by
    simpa [isPySpace] using h
  rcases h' with ((((rfl | rfl) | rfl) | rfl) | rfl) | rfl <;> rfl

lemma no_space_of_map_lower (s : String) (t : List Char)
    (h : s.data.map lowerChar = t) (htns : ∀ c ∈ t, isPySpace c = false) :
    ∀ c ∈ s.data, isPySpace c = false := by
  intro c hc
  by_contra hsp
  rw [Bool.not_eq_false] at hsp
  have hfix := isPySpace_lowerChar_fix c hsp
  have hmem : lowerChar c ∈ t := h ▸ List.mem_map_of_mem lowerChar hc
  rw [hfix] at hmem
  rw [htns c hmem] at hsp
  cases hsp

lemma dropWhile_eq_self_of {α : Type} (p : α → Bool) :
    ∀ l : List α, (∀ c ∈ l, p c = false) → l.dropWhile p = l := by
  intro l h
  cases l with
  | nil => rfl
  | cons c rest =>
    rw [List.dropWhile_cons, h c (List.mem_cons_self c rest)]
    simp

lemma stripWS_eq_self (l : List Char) (h : ∀ c ∈ l, isPySpace c = false) :
    stripWS l = l := by
  unfold stripWS
  rw [dropWhile_eq_self_of isPySpace l h]
  rw [dropWhile_eq_self_of isPySpace l.reverse (fun c hc => h c (List.mem_reverse.mp hc))]
  exact List.reverse_reverse l

lemma map_lower_head (s : String) (t : List Char) (h : s.data.map lowerChar = t)
    (c : Char) (hc : s.data.head? = some c) : t.head? = some (lowerChar c) := by
  cases hd : s.data with
  | nil => rw [hd] at hc; cases hc
  | cons x rest =>
    rw [hd] at hc h
    injection hc with hc1
    subst hc1
    rw [← h]
    rfl

lemma pyFloatParse_eq_parseBody (s : String) (t : List Char)
    (h : s.data.map lowerChar = t)
    (htns : ∀ c ∈ t, isPySpace c = false)
    (hth : ∀ x, t.head? = some x → x ≠ '+' ∧ x ≠ '-') :
    pyFloatParse s = parseBody false s.data := by
  have hns := no_space_of_map_lower s t h htns
  simp only [pyFloatParse]
  rw [stripWS_eq_self s.data hns]
  cases hd : s.data with
  | nil => simp
  | cons c rest =>
    have hhead : (c :: rest).head? = some c := rfl
    have hlow : t.head? = some (lowerChar c) := map_lower_head s t h c (by rw [hd]; rfl)
    have hc1 : c ≠ '+' := by
      intro e
      subst e
      exact absurd rfl (hth '+' hlow).1
    have hc2 : c ≠ '-' := by
      intro e
      subst e
      exact absurd rfl (hth '-' hlow).2
    rw [if_neg (by simp [hhead, hc1]), if_neg (by simp [hhead, hc2])]

lemma numCoerce_nonfinite (s : String)
    (h : pyLower s = "nan" ∨ pyLower s = "inf" ∨ pyLower s = "infinity") :
    ∃ v, numCoerce s = some v ∧ v.finiteB = false := by
  have hdata : s.data.map lowerChar = "nan".data ∨ s.data.map lowerChar = "inf".data ∨
      s.data.map lowerChar = "infinity".data := by
    rcases h with h | h | h
    · exact Or.inl (congrArg String.data h)
    · exact Or.inr (Or.inl (congrArg String.data h))
    · exact Or.inr (Or.inr (congrArg String.data h))
  have hne : s ≠ "" := by
    intro e
    subst e
    rcases hdata with h' | h' | h' <;> cases h'
  have hnd : s ≠ "-" := by
    intro e
    subst e
    rcases hdata with h' | h' | h' <;> cases h'
  have hguard : s ≠ "" ∧ s ∉ (["", "-"] : List String) := ⟨hne, by simp [hne, hnd]⟩
  rcases hdata with h' | h' | h'
  · refine ⟨.nan, ?_, rfl⟩
    unfold numCoerce
    rw [if_pos hguard,
      pyFloatParse_eq_parseBody s "nan".data h' (by decide) (by decide)]
    simp only [parseBody]
    rw [h']
    rw [if_neg (by decide), if_pos rfl]
  · refine ⟨.posInf, ?_, rfl⟩
    unfold numCoerce
    rw [if_pos hguard,
      pyFloatParse_eq_parseBody s "inf".data h' (by decide) (by decide)]
    simp only [parseBody]
    rw [h']
    rw [if_pos (by decide)]
    rfl
  · refine ⟨.posInf, ?_, rfl⟩
    unfold numCoerce
    rw [if_pos hguard,
      pyFloatParse_eq_parseBody s "infinity".data h' (by decide) (by decide)]
    simp only [parseBody]
    rw [h']
    rw [if_pos (by decide)]
    rfl

/-- C10: a trimmed `Energy` or `Might` equal to `nan`, `inf` or `Infinity`
in any letter case parses successfully, so the stat is present with a
non-finite value — unlike the `nan` handling of the domain, subtype,
supertypes and tags fields, whose shared guard rejects the literal `nan`. -/
theorem claim_C10 :
    (∀ (row : Row) (r : CardRecord), parse_csv_row row = some r →
      (pyLower (pyStrip (rget row "Energy")) = "nan" ∨
       pyLower (pyStrip (rget row "Energy")) = "inf" ∨
       pyLower (pyStrip (rget row "Energy")) = "infinity") →
      ∃ v, r.stats.energy = some v ∧ v.finiteB = false) ∧
    (∀ (row : Row) (r : CardRecord), parse_csv_row row = some r →
      (pyLower (pyStrip (rget row "Might")) = "nan" ∨
       pyLower (pyStrip (rget row "Might")) = "inf" ∨
       pyLower (pyStrip (rget row "Might")) = "infinity") →
      ∃ v, r.stats.might = some v ∧ v.finiteB = false) ∧
    (∀ s : String, pyLower s = "nan" → truthyNotNan s = false) := by
  refine ⟨?_, ?_, ?_⟩
  · intro row r hp h
    obtain ⟨-, -, rfl⟩ := (parse_csv_row_some_iff row r).mp hp
    rw [buildCard_energy]
    exact numCoerce_nonfinite _ h
  · intro row r hp h
    obtain ⟨-, -, rfl⟩ := (parse_csv_row_some_iff row r).mp hp
    rw [buildCard_might]
    exact numCoerce_nonfinite _ h
  · intro s h
    unfold truthyNotNan
    rw [h]
    simp


/-- C10 witness: `NaN` and `inf` give present, non-finite stats, while the
shared `nan` guard of the other fields rejects the literal. -/
theorem claim_C10_witness :
    parse_csv_row nanRow = some nanParsed ∧
    (∃ v, nanParsed.stats.energy = some v ∧ v.finiteB = false) ∧
    (∃ v, nanParsed.stats.might = some v ∧ v.finiteB = false) ∧
    truthyNotNan "nan" = false :=
  ⟨by decide,
   claim_C10.1 nanRow nanParsed (by decide) (Or.inl (by decide)),
   claim_C10.2.1 nanRow nanParsed (by decide) (Or.inr (Or.inl (by decide))),
   claim_C10.2.2 "nan" (by decide)⟩
